import Mathlib

/-!
# Token validation server: `auth/auth_server.go`

A shallow embedding of the handler `validateToken` and of `loadTokens`,
together with the parts of the Go standard library the handler calls:

* `time.Parse` for the layout constant `"2006-01-02"` (the only layout the
  handler uses), `time.Date`, `Time.After`;
* `http.Error`, `Header.Set`, `ResponseWriter.Write` / `WriteHeader`;
* the map index expression `config.Tokens[token]`.

The outside world (the file `tokens.yaml`, the YAML decoder, the wall clock) is
an explicit value of type `Env`; the handler is a pure function of it.

Conventions.
* A Go `string` is a Lean `String`, read through `String.toList`.  The parser
  only ever accepts the ASCII bytes `0`..`9` and `-`, for which byte positions
  and character positions coincide; any other character makes it fail in both
  readings.
* A Go `int` is an `Int` or a `Nat` (no value in the handler gets near the
  64-bit range).
* A Go `[]string` is an `Option (List String)`; `none` is the nil slice.
* The response is the state of the `http.ResponseWriter` when the handler
  returns: header map, status code and the sequence of writes.  The JSON
  document written by `json.Encoder.Encode` is kept as the Go value handed to
  the encoder.

The second half of the definitions is the specification side: the Gregorian
calendar (`CivilDate`, `toDays`), the date format `YYYY-MM-DD` (`readDate`,
`WellFormedDate`), the day an instant falls on (`OnDay`).  They are written
independently of the Go algorithms; the lemmas `dayNumber_eq` and `Parse_eq`
relate the two sides.
-/

set_option autoImplicit false

namespace AuthServer

/-! ## Data model (lines 14-22) -/

/-- Go `type TokenInfo struct`. -/
structure TokenInfo where
  User : String
  Permissions : Option (List String)
  Expires : String
  deriving DecidableEq

/-- Go `map[string]TokenInfo`, as the list of its entries.  A nil map is `[]`. -/
abbrev TokenMap := List (String × TokenInfo)

/-- Go `type TokensConfig struct`. -/
structure TokensConfig where
  Tokens : TokenMap
  deriving DecidableEq

/-- The map index expression `m[key]` in its two-result form
`v, exists := m[key]`: `some v` when the key is present, `none` otherwise.
Keys are compared by string equality. -/
def TokenMap.index : TokenMap → String → Option TokenInfo
  | [], _ => none
  | (k, v) :: rest, key => if k = key then some v else TokenMap.index rest key

/-- The map without the entry for `key` (Go `delete(m, key)`). -/
def TokenMap.delete (m : TokenMap) (key : String) : TokenMap :=
  m.filter (fun e => decide (e.1 ≠ key))

/-! ## Package `time` -/

namespace time

/-- An instant: whole seconds since 1970-01-01 00:00:00 UTC and the nanosecond
within that second (`0 ≤ nsec < 1e9` for every instant the clock or the parser
produces). -/
structure Time where
  sec : Int
  nsec : Nat
  deriving DecidableEq

/-- Go `func (t Time) After(u Time) bool`, wall-clock branch:
`ts > us || ts == us && t.nsec() > u.nsec()`. -/
def Time.After (t u : Time) : Bool :=
  decide (t.sec > u.sec) || (decide (t.sec = u.sec) && decide (t.nsec > u.nsec))

/-- Go `isLeap`: `year%4 == 0 && (year%100 != 0 || year%400 == 0)`. -/
def isLeap (year : Int) : Bool :=
  decide (year % 4 = 0) && (decide (year % 100 ≠ 0) || decide (year % 400 = 0))

/-- Go `daysBefore`: `daysBefore[m]` counts the days of a non-leap year before
month `m+1`. -/
def daysBefore : List Nat :=
  [0, 31, 59, 90, 120, 151, 181, 212, 243, 273, 304, 334, 365]

/-- Go `daysIn(m, year)`. -/
def daysIn (m : Nat) (year : Int) : Nat :=
  if m = 2 ∧ isLeap year = true then 29
  else daysBefore.getD m 0 - daysBefore.getD (m - 1) 0

/-- Go `daysSinceEpoch(year)`: the days from January 1 of the epoch year to
January 1 of `year`, by 400-, 100-, 4- and 1-year cycles.  The epoch year here
is year 1 (Go's absolute epoch lies a whole number of 400-year cycles earlier,
and the difference is added back as a constant in `Date`). -/
def daysSinceEpoch (year : Int) : Int :=
  let y := year - 1
  let n400 := y / 400
  let y := y - 400 * n400
  let d := 146097 * n400
  let n100 := y / 100
  let y := y - 100 * n100
  let d := d + 36524 * n100
  let n4 := y / 4
  let y := y - 4 * n4
  let d := d + 1461 * n4
  d + 365 * y

/-- Days from 0001-01-01 to 1970-01-01. -/
def unixEpochDays : Int := 719162

/-- The number of the day `year-month-day` counted from 1970-01-01 (day 0), as
`time.Date` computes it for an in-range month and day. -/
def dayNumber (year : Int) (month day : Nat) : Int :=
  daysSinceEpoch year + (daysBefore.getD (month - 1) 0 : Nat)
    + (if isLeap year = true ∧ 3 ≤ month then 1 else 0)
    + ((day : Int) - 1) - unixEpochDays

/-- Go `time.Date(year, month, day, 0, 0, 0, 0, time.UTC)` for `1 ≤ month ≤ 12`
(no normalisation of the month is needed by the caller). -/
def Date (year : Int) (month day : Nat) : Time :=
  { sec := dayNumber year month day * 86400, nsec := 0 }

/-- Go `isDigit(s, i)`. -/
def isDigit (s : List Char) (i : Nat) : Bool :=
  match s.get? i with
  | none => false
  | some c => decide (48 ≤ c.toNat) && decide (c.toNat ≤ 57)

/-- Go `getnum(s, fixed)`: one or two leading digits; exactly two when
`fixed`. -/
def getnum (s : List Char) (fixed : Bool) : Option (Nat × List Char) :=
  if isDigit s 0 = false then none
  else if isDigit s 1 = false then
    if fixed then none else some ((s.getD 0 '0').toNat - 48, s.drop 1)
  else some (((s.getD 0 '0').toNat - 48) * 10 + ((s.getD 1 '0').toNat - 48), s.drop 2)

/-- Go `leadingInt(s)`: the leading run of digits as a number and the rest of
the string; fails on overflow of 63 bits. -/
def leadingInt : List Char → Nat → Option (Nat × List Char)
  | [], x => some (x, [])
  | c :: rest, x =>
    if c.toNat < 48 ∨ c.toNat > 57 then some (x, c :: rest)
    else if x > 2 ^ 63 / 10 then none
    else
      let x1 := x * 10 + (c.toNat - 48)
      if x1 > 2 ^ 63 then none else leadingInt rest x1

/-- Go `atoi(s)`: an optional sign, then digits up to the end of the string. -/
def atoi (s : List Char) : Option Int :=
  let signed : Bool × List Char :=
    match s with
    | c :: rest => if c = '-' ∨ c = '+' then (decide (c = '-'), rest) else (false, s)
    | [] => (false, s)
  match leadingInt signed.2 0 with
  | none => none
  | some (q, rem) =>
    if rem ≠ [] then none
    else some (if signed.1 = true then -(q : Int) else (q : Int))

/-- Go `skip(value, pre)` for a literal `pre` without spaces (the layout's
literals are `""` and `"-"`): `value` must start with `pre`, which is
removed. -/
def skip : List Char → List Char → Option (List Char)
  | value, [] => some value
  | [], _ :: _ => none
  | v :: value, p :: pre => if v ≠ p then none else skip value pre

/-- Go `time.Parse("2006-01-02", value)`: `some t` for a returned time with a
nil error, `none` for a non-nil error.  The layout splits into the chunks
`stdLongYear`, `"-" stdZeroMonth`, `"-" stdZeroDay`; after the last chunk no
text may remain, and the day is checked against the month's length. -/
def Parse (value : String) : Option Time :=
  let value := value.toList
  -- stdLongYear
  if value.length < 4 ∨ isDigit value 0 = false then none else
  match atoi (value.take 4) with
  | none => none
  | some year =>
  let value := value.drop 4
  -- "-", stdZeroMonth
  match skip value ['-'] with
  | none => none
  | some value =>
  match getnum value true with
  | none => none
  | some (month, value) =>
  if month ≤ 0 ∨ 12 < month then none else
  -- "-", stdZeroDay
  match skip value ['-'] with
  | none => none
  | some value =>
  match getnum value true with
  | none => none
  | some (day, value) =>
  -- end of layout
  if value.length ≠ 0 then none else
  -- validate the day of the month
  if day < 1 ∨ day > daysIn month year then none else
  some (Date year month day)

end time

/-! ## Package `net/http` -/

namespace http

/-- A value stored in the `map[string]interface{}` the handler encodes. -/
inductive Value where
  | string (s : String)
  | strings (xs : Option (List String))
  deriving DecidableEq

/-- One write to the response body: plain text, or the JSON document that
`json.Encoder.Encode` produces for a `map[string]interface{}`. -/
inductive Chunk where
  | text (s : String)
  | json (m : List (String × Value))
  deriving DecidableEq

/-- The state of an `http.ResponseWriter`. -/
structure ResponseWriter where
  header : List (String × String)
  wroteHeader : Bool
  status : Nat
  body : List Chunk
  deriving DecidableEq

/-- The response writer the server hands to a handler. -/
def ResponseWriter.new : ResponseWriter :=
  { header := [], wroteHeader := false, status := 0, body := [] }

/-- Go `Header.Set(key, value)`: replaces the values of `key`. -/
def ResponseWriter.Set (w : ResponseWriter) (key value : String) : ResponseWriter :=
  { w with header := w.header.filter (fun e => decide (e.1 ≠ key)) ++ [(key, value)] }

/-- Go `Header.Get(key)`. -/
def ResponseWriter.Get (w : ResponseWriter) (key : String) : Option String :=
  (w.header.find? (fun e => decide (e.1 = key))).map Prod.snd

/-- Go `WriteHeader(code)`: the first call fixes the status code. -/
def ResponseWriter.WriteHeader (w : ResponseWriter) (code : Nat) : ResponseWriter :=
  if w.wroteHeader then w else { w with wroteHeader := true, status := code }

/-- Go `Write`: sends status 200 first when no header was written yet. -/
def ResponseWriter.Write (w : ResponseWriter) (c : Chunk) : ResponseWriter :=
  let w := w.WriteHeader 200
  { w with body := w.body ++ [c] }

def StatusOK : Nat := 200
def StatusForbidden : Nat := 403
def StatusInternalServerError : Nat := 500

/-- Go `http.Error(w, error, code)`. -/
def Error (w : ResponseWriter) (error : String) (code : Nat) : ResponseWriter :=
  let w := w.Set "Content-Type" "text/plain; charset=utf-8"
  let w := w.Set "X-Content-Type-Options" "nosniff"
  let w := w.WriteHeader code
  w.Write (Chunk.text (error ++ "\n"))

/-- The part of `*http.Request` the handler reads: the path wildcards. -/
structure Request where
  pathValues : List (String × String)
  deriving DecidableEq

/-- Go `Request.PathValue(name)`: the wildcard's value, or `""`. -/
def Request.PathValue (r : Request) (name : String) : String :=
  ((r.pathValues.find? (fun e => decide (e.1 = name))).map Prod.snd).getD ""

end http

/-! ## The program (lines 24-78) -/

/-- What the handler reads from outside the process. -/
structure Env where
  /-- The result of `os.ReadFile(name)`: the content, or an error. -/
  ReadFile : String → Except String String
  /-- The result of `yaml.Unmarshal(data, &config)` on a zero `TokensConfig`. -/
  Unmarshal : String → Except String TokensConfig
  /-- The result of `time.Now()`. -/
  Now : time.Time

/-- Go `loadTokens` (lines 24-37). -/
def loadTokens (env : Env) : Except String TokensConfig :=
  match env.ReadFile "tokens.yaml" with
  | .error err => .error err
  | .ok data =>
    match env.Unmarshal data with
    | .error err => .error err
    | .ok config => .ok config

/-- Go `validateToken` (lines 39-78). -/
def validateToken (env : Env) (w : http.ResponseWriter) (r : http.Request) :
    http.ResponseWriter :=
  let token := r.PathValue "token"
  match loadTokens env with
  | .error _ => http.Error w "Configuration error" http.StatusInternalServerError
  | .ok config =>
    match config.Tokens.index token with
    | none => http.Error w "Invalid token" http.StatusForbidden
    | some tokenInfo =>
      match time.Parse tokenInfo.Expires with
      | none => http.Error w "Invalid expiration date" http.StatusInternalServerError
      | some expires =>
        if env.Now.After expires = true then
          http.Error w "Token expired" http.StatusForbidden
        else
          let w := w.Set "X-Validated-User" tokenInfo.User
          let w := w.Set "Content-Type" "application/json"
          let response : List (String × http.Value) :=
            [("user", http.Value.string tokenInfo.User),
             ("permissions", http.Value.strings tokenInfo.Permissions)]
          w.Write (http.Chunk.json response)

/-! ## Specification side: calendar dates, the `YYYY-MM-DD` format, instants -/

open time

/-- A calendar date of the proleptic Gregorian calendar. -/
structure CivilDate where
  year : Int
  month : Nat
  day : Nat
  deriving DecidableEq

/-- The Gregorian leap-year rule. -/
def leapYear (y : Int) : Prop := 4 ∣ y ∧ (¬ 100 ∣ y ∨ 400 ∣ y)

instance (y : Int) : Decidable (leapYear y) := by unfold leapYear; infer_instance

/-- The number of days of month `m` of year `y`. -/
def monthLength (y : Int) (m : Nat) : Nat :=
  match m with
  | 1 => 31 | 2 => if leapYear y then 29 else 28 | 3 => 31 | 4 => 30 | 5 => 31 | 6 => 30
  | 7 => 31 | 8 => 31 | 9 => 30 | 10 => 31 | 11 => 30 | 12 => 31 | _ => 0

/-- The date exists in the calendar. -/
def CivilDate.Valid (D : CivilDate) : Prop :=
  1 ≤ D.month ∧ D.month ≤ 12 ∧ 1 ≤ D.day ∧ D.day ≤ monthLength D.year D.month

instance (D : CivilDate) : Decidable D.Valid := by unfold CivilDate.Valid; infer_instance

/-- Days from 0001-01-01 to January 1 of year `y`: 365 a year plus one for each
leap year before `y`. -/
def daysBeforeYear (y : Int) : Int :=
  365 * (y - 1) + (y - 1) / 4 - (y - 1) / 100 + (y - 1) / 400

/-- Days of year `y` before the first of month `m`: the lengths of the months
`1 .. m-1` added up. -/
def daysBeforeMonth (y : Int) (m : Nat) : Nat :=
  ((List.range (m - 1)).map (fun k => monthLength y (k + 1))).sum

/-- The number of the day `D`, counted from 1970-01-01 (day 0). -/
def CivilDate.toDays (D : CivilDate) : Int :=
  daysBeforeYear D.year + daysBeforeMonth D.year D.month + ((D.day : Int) - 1) - 719162

/-- Chronological order of dates: `D` is strictly before `E`. -/
def CivilDate.lt (D E : CivilDate) : Prop :=
  D.year < E.year ∨ (D.year = E.year ∧ (D.month < E.month ∨ (D.month = E.month ∧ D.day < E.day)))

instance (D E : CivilDate) : Decidable (D.lt E) := by unfold CivilDate.lt; infer_instance

/-- The day after `D`. -/
def nextDay (D : CivilDate) : CivilDate :=
  if D.day < monthLength D.year D.month then { D with day := D.day + 1 }
  else if D.month < 12 then ⟨D.year, D.month + 1, 1⟩
  else ⟨D.year + 1, 1, 1⟩

/-- The day before `D`. -/
def prevDay (D : CivilDate) : CivilDate :=
  if 1 < D.day then { D with day := D.day - 1 }
  else if 1 < D.month then ⟨D.year, D.month - 1, monthLength D.year (D.month - 1)⟩
  else ⟨D.year - 1, 12, 31⟩

/-- The ten decimal digits. -/
def decimalDigits : List Char := "0123456789".toList

/-- The value of a decimal digit. -/
def digitValue (c : Char) : Nat := decimalDigits.indexOf c

/-- Reads ten characters `YYYY-MM-DD` as year, month and day; `none` for any
other text. -/
def readDateChars : List Char → Option CivilDate
  | [y1, y2, y3, y4, h1, m1, m2, h2, d1, d2] =>
    if h1 = '-' ∧ h2 = '-' ∧ ∀ c ∈ [y1, y2, y3, y4, m1, m2, d1, d2], c ∈ decimalDigits then
      some ⟨1000 * digitValue y1 + 100 * digitValue y2 + 10 * digitValue y3 + digitValue y4,
        10 * digitValue m1 + digitValue m2, 10 * digitValue d1 + digitValue d2⟩
    else none
  | _ => none

/-- Reads a string of the form `YYYY-MM-DD`. -/
def readDate (s : String) : Option CivilDate := readDateChars s.toList

/-- The string `s` is a well-formed `YYYY-MM-DD` date and denotes the calendar
date `D`. -/
def WellFormedDate (s : String) (D : CivilDate) : Prop := readDate s = some D ∧ D.Valid

instance (s : String) (D : CivilDate) : Decidable (WellFormedDate s D) := by
  unfold WellFormedDate; infer_instance

/-- The instant 00:00:00.000000000 UTC that begins the day `D`. -/
def midnight (D : CivilDate) : time.Time := { sec := D.toDays * 86400, nsec := 0 }

/-- The instant `t` falls on the calendar day `D` (UTC): `D` is a date of the
calendar and `t` lies in the 86400 seconds that start at `midnight D`. -/
def OnDay (t : time.Time) (D : CivilDate) : Prop := D.Valid ∧ t.sec / 86400 = D.toDays

instance (t : time.Time) (D : CivilDate) : Decidable (OnDay t D) := by
  unfold OnDay; infer_instance

/-- Chronological order of instants: `t` is not later than `u`. -/
def NotAfter (t u : time.Time) : Prop := t.sec < u.sec ∨ (t.sec = u.sec ∧ t.nsec ≤ u.nsec)

instance (t u : time.Time) : Decidable (NotAfter t u) := by unfold NotAfter; infer_instance

/-- The environment `env` read at the instant `t`. -/
def Env.atInstant (env : Env) (t : time.Time) : Env := { env with Now := t }

/-- The four plain-text messages the handler passes to `http.Error`. -/
def errorMessages : List String :=
  ["Configuration error", "Invalid token", "Invalid expiration date", "Token expired"]

/-! ## Example registry (the scenarios of the specification) -/

/-- A registry with a valid token, an old one, one that expires on 2025-06-15,
one with a malformed date, and two keys that differ from `tok-abc` only in
letter case and in surrounding blanks. -/
def exampleConfig : TokensConfig :=
  { Tokens :=
      [("tok-abc", { User := "alice", Permissions := some ["read", "write"], Expires := "2025-12-31" }),
       ("tok-old", { User := "bob", Permissions := some [], Expires := "2024-01-01" }),
       ("tok-edge", { User := "carol", Permissions := some ["read"], Expires := "2025-06-15" }),
       ("tok-bad", { User := "dave", Permissions := none, Expires := "not-a-date" }),
       ("TOK-XYZ", { User := "erin", Permissions := some ["admin"], Expires := "2025-12-31" }),
       (" tok-xyz ", { User := "erin", Permissions := some ["admin"], Expires := "2025-12-31" })] }

/-- An environment whose `tokens.yaml` decodes to `exampleConfig`, read at the
instant `now`. -/
def exampleEnv (now : time.Time) : Env :=
  { ReadFile := fun name => if name = "tokens.yaml" then .ok "tokens: ..." else .error "no such file"
    Unmarshal := fun _ => .ok exampleConfig
    Now := now }

/-- An environment without a `tokens.yaml`. -/
def missingFileEnv (now : time.Time) : Env :=
  { ReadFile := fun _ => .error "open tokens.yaml: no such file or directory"
    Unmarshal := fun _ => .ok exampleConfig
    Now := now }

/-- An environment whose `tokens.yaml` does not decode. -/
def corruptFileEnv (now : time.Time) : Env :=
  { ReadFile := fun _ => .ok "tokens: ["
    Unmarshal := fun _ => .error "yaml: did not find expected node content"
    Now := now }

/-- The example environment after the entry for `key` was removed from the
registry. -/
def exampleEnvWithout (key : String) (now : time.Time) : Env :=
  { ReadFile := fun name => if name = "tokens.yaml" then .ok "tokens: ..." else .error "no such file"
    Unmarshal := fun _ => .ok { Tokens := exampleConfig.Tokens.delete key }
    Now := now }

/-- The response of a successful validation of the record `info`. -/
def successResponse (info : TokenInfo) : http.ResponseWriter :=
  { header := [("X-Validated-User", info.User), ("Content-Type", "application/json")]
    wroteHeader := true
    status := 200
    body := [http.Chunk.json [("user", http.Value.string info.User),
      ("permissions", http.Value.strings info.Permissions)]] }

/-- The request `GET /validate/<token>`. -/
def requestFor (token : String) : http.Request := { pathValues := [("token", token)] }

/-- The instant 2025-06-15 00:00:00 UTC. -/
def june15Midnight : time.Time := { sec := 1749945600, nsec := 0 }

/-- The instant 2025-06-15 12:00:00 UTC. -/
def june15Noon : time.Time := { sec := 1749988800, nsec := 0 }

/-- The instant 2025-06-15 23:59:59.999999999 UTC. -/
def june15LastNano : time.Time := { sec := 1750031999, nsec := 999999999 }

/-! ## The calendar of `time.Date` is the Gregorian calendar -/

theorem daysSinceEpoch_eq (y : Int) : daysSinceEpoch y = daysBeforeYear y := by
  simp only [daysSinceEpoch, daysBeforeYear]
  omega

theorem isLeap_iff (y : Int) : isLeap y = true ↔ leapYear y := by
  simp only [isLeap, leapYear, Bool.and_eq_true, Bool.or_eq_true, decide_eq_true_eq]
  omega

theorem daysIn_eq (y : Int) (m : Nat) (h1 : 1 ≤ m) (h2 : m ≤ 12) : daysIn m y = monthLength y m := by
  by_cases hl : leapYear y <;>
  interval_cases m <;> simp [daysIn, monthLength, daysBefore, isLeap_iff, hl]

theorem dayNumber_eq (D : CivilDate) (h1 : 1 ≤ D.month) (h2 : D.month ≤ 12) :
    time.dayNumber D.year D.month D.day = D.toDays := by
  obtain ⟨y, m, d⟩ := D
  simp only at h1 h2
  simp only [dayNumber, CivilDate.toDays, daysSinceEpoch_eq, unixEpochDays, isLeap_iff]
  by_cases hl : leapYear y <;>
  interval_cases m <;> simp [daysBeforeMonth, monthLength, daysBefore, hl, List.range_succ] <;> omega

theorem daysBeforeYear_succ (y : Int) :
    daysBeforeYear (y + 1) = daysBeforeYear y + (if leapYear y then 366 else 365) := by
  simp only [daysBeforeYear, leapYear]
  split_ifs <;> omega

theorem daysBeforeYear_le (y : Int) (k : Nat) :
    daysBeforeYear y + 365 * k ≤ daysBeforeYear (y + k) := by
  induction k with
  | zero => simp
  | succ k ih =>
    have h := daysBeforeYear_succ (y + k)
    have e : y + ((k + 1 : Nat) : Int) = y + k + 1 := by push_cast; ring
    rw [e, h]
    split_ifs <;> push_cast <;> omega

theorem dayOfYear_bound (D : CivilDate) (h : D.Valid) :
    1 ≤ daysBeforeMonth D.year D.month + D.day ∧
      daysBeforeMonth D.year D.month + D.day ≤ (if leapYear D.year then 366 else 365) := by
  obtain ⟨y, m, d⟩ := D
  obtain ⟨h1, h2, h3, h4⟩ := h
  simp only at h1 h2 h3 h4 ⊢
  by_cases hl : leapYear y <;>
  interval_cases m <;>
  simp [daysBeforeMonth, monthLength, hl, List.range_succ] at h4 ⊢ <;> omega

theorem daysBeforeMonth_succ (y : Int) (m : Nat) (h : 1 ≤ m) :
    daysBeforeMonth y (m + 1) = daysBeforeMonth y m + monthLength y m := by
  obtain ⟨k, rfl⟩ : ∃ k, m = k + 1 := ⟨m - 1, by omega⟩
  simp [daysBeforeMonth, List.range_succ]

theorem daysBeforeMonth_le (y : Int) (m k : Nat) (h : 1 ≤ m) :
    daysBeforeMonth y m + monthLength y m ≤ daysBeforeMonth y (m + 1 + k) := by
  induction k with
  | zero => rw [daysBeforeMonth_succ y m h]
  | succ k ih =>
    have e : m + 1 + (k + 1) = (m + 1 + k) + 1 := by omega
    rw [e, daysBeforeMonth_succ y (m + 1 + k) (by omega)]
    omega

theorem dayOfYear_lt (y : Int) (m d m1 d1 : Nat) (h : CivilDate.Valid ⟨y, m, d⟩)
    (h1 : CivilDate.Valid ⟨y, m1, d1⟩) (hlt : m < m1 ∨ (m = m1 ∧ d < d1)) :
    daysBeforeMonth y m + d < daysBeforeMonth y m1 + d1 := by
  obtain ⟨a1, a2, a3, a4⟩ := h
  obtain ⟨b1, b2, b3, b4⟩ := h1
  simp only at a1 a2 a3 a4 b1 b2 b3 b4
  rcases hlt with hlt | ⟨rfl, hlt⟩
  · obtain ⟨k, rfl⟩ : ∃ k, m1 = m + 1 + k := ⟨m1 - (m + 1), by omega⟩
    have := daysBeforeMonth_le y m k a1
    omega
  · omega

theorem toDays_strictMono (D E : CivilDate) (hD : D.Valid) (hE : E.Valid) (h : D.lt E) :
    D.toDays < E.toDays := by
  have bD := dayOfYear_bound D hD
  have bE := dayOfYear_bound E hE
  obtain ⟨y, m, d⟩ := D
  obtain ⟨y1, m1, d1⟩ := E
  simp only [CivilDate.lt, CivilDate.toDays] at *
  rcases h with h | ⟨rfl, h⟩
  · obtain ⟨k, hk⟩ : ∃ k : Nat, y1 = y + 1 + k := ⟨(y1 - (y + 1)).toNat, by omega⟩
    have s := daysBeforeYear_succ y
    have l := daysBeforeYear_le (y + 1) k
    rw [← hk] at l
    split_ifs at s bD <;> omega
  · have := dayOfYear_lt y m d m1 d1 hD hE h
    omega


theorem monthLength_pos (y : Int) (m : Nat) (h1 : 1 ≤ m) (h2 : m ≤ 12) :
    28 ≤ monthLength y m := by
  by_cases hl : leapYear y <;> interval_cases m <;> simp [monthLength, hl]

theorem daysBeforeMonth_one (y : Int) : daysBeforeMonth y 1 = 0 := by
  simp [daysBeforeMonth]

theorem daysBeforeMonth_thirteen (y : Int) :
    daysBeforeMonth y 13 = if leapYear y then 366 else 365 := by
  by_cases hl : leapYear y <;> simp [daysBeforeMonth, monthLength, hl, List.range_succ]

theorem nextDay_spec (D : CivilDate) (h : D.Valid) :
    (nextDay D).Valid ∧ (nextDay D).toDays = D.toDays + 1 := by
  obtain ⟨y, m, d⟩ := D
  obtain ⟨h1, h2, h3, h4⟩ := h
  simp only at h1 h2 h3 h4
  simp only [nextDay]
  split_ifs with c1 c2
  · exact ⟨⟨h1, h2, by simp only; omega, by simp only; omega⟩, by simp only [CivilDate.toDays]; omega⟩
  · have p := monthLength_pos y (m + 1) (by omega) (by omega)
    have s := daysBeforeMonth_succ y m h1
    refine ⟨⟨?_, ?_, ?_, ?_⟩, ?_⟩ <;> simp only [CivilDate.toDays] <;> omega
  · have hm : m = 12 := by omega
    subst hm
    have s : daysBeforeMonth y 13 = daysBeforeMonth y 12 + monthLength y 12 :=
      daysBeforeMonth_succ y 12 (by omega)
    have t := daysBeforeMonth_thirteen y
    have u := daysBeforeYear_succ y
    have o := daysBeforeMonth_one (y + 1)
    have p : monthLength (y + 1) 1 = 31 := rfl
    have q : monthLength y 12 = 31 := rfl
    refine ⟨⟨?_, ?_, ?_, ?_⟩, ?_⟩ <;> simp only [CivilDate.toDays] <;>
      first | omega | (split_ifs at t u <;> omega)

theorem prevDay_spec (D : CivilDate) (h : D.Valid) :
    (prevDay D).Valid ∧ (prevDay D).toDays = D.toDays - 1 := by
  obtain ⟨y, m, d⟩ := D
  obtain ⟨h1, h2, h3, h4⟩ := h
  simp only at h1 h2 h3 h4
  simp only [prevDay]
  split_ifs with c1 c2
  · refine ⟨⟨h1, h2, ?_, ?_⟩, ?_⟩ <;> simp only [CivilDate.toDays] <;> omega
  · have p := monthLength_pos y (m - 1) (by omega) (by omega)
    have s := daysBeforeMonth_succ y (m - 1) (by omega)
    have e : m - 1 + 1 = m := by omega
    rw [e] at s
    refine ⟨⟨?_, ?_, ?_, ?_⟩, ?_⟩ <;> simp only [CivilDate.toDays] <;> omega
  · have hm : m = 1 := by omega
    subst hm
    have s : daysBeforeMonth (y - 1) 13 = daysBeforeMonth (y - 1) 12 + monthLength (y - 1) 12 :=
      daysBeforeMonth_succ (y - 1) 12 (by omega)
    have t := daysBeforeMonth_thirteen (y - 1)
    have u := daysBeforeYear_succ (y - 1)
    have o := daysBeforeMonth_one y
    have e : y - 1 + 1 = y := by omega
    rw [e] at u
    have q : monthLength (y - 1) 12 = 31 := rfl
    refine ⟨⟨?_, ?_, ?_, ?_⟩, ?_⟩ <;> simp only [CivilDate.toDays] <;>
      first | omega | (split_ifs at t u <;> omega)

theorem exists_date_of_dayNumber (n : Int) : ∃ D : CivilDate, D.Valid ∧ D.toDays = n := by
  induction n using Int.induction_on with
  | hz => exact ⟨⟨1970, 1, 1⟩, by decide, by decide⟩
  | hp i ih =>
    obtain ⟨D, hv, hd⟩ := ih
    exact ⟨nextDay D, (nextDay_spec D hv).1, by rw [(nextDay_spec D hv).2, hd]⟩
  | hn i ih =>
    obtain ⟨D, hv, hd⟩ := ih
    exact ⟨prevDay D, (prevDay_spec D hv).1, by rw [(prevDay_spec D hv).2, hd]⟩

/-! ## `time.Parse` accepts exactly the well-formed dates -/

theorem mem_decimalDigits (c : Char) :
    c ∈ decimalDigits ↔ 48 ≤ c.toNat ∧ c.toNat ≤ 57 := by
  constructor
  · intro h
    simp only [decimalDigits, String.toList, List.mem_cons, List.mem_singleton] at h
    rcases h with h | h | h | h | h | h | h | h | h | h | h <;> first | (subst h; decide) | simp at h
  · rintro ⟨h1, h2⟩
    have e : c = Char.ofNat c.toNat := (Char.ofNat_toNat c).symm
    generalize c.toNat = n at *
    subst e
    interval_cases n <;> decide

theorem digitValue_eq (c : Char) (h : c ∈ decimalDigits) : digitValue c = c.toNat - 48 := by
  simp only [decimalDigits, String.toList, List.mem_cons, List.mem_singleton] at h
  rcases h with h | h | h | h | h | h | h | h | h | h | h <;> first | (subst h; decide) | simp at h

theorem isDigit_zero (c : Char) (l : List Char) :
    time.isDigit (c :: l) 0 = true ↔ c ∈ decimalDigits := by
  simp [time.isDigit, mem_decimalDigits]

theorem isDigit_one (a c : Char) (l : List Char) :
    time.isDigit (a :: c :: l) 1 = true ↔ c ∈ decimalDigits := by
  simp [time.isDigit, mem_decimalDigits]

theorem getnum_fixed_cons (a b : Char) (rest : List Char) :
    time.getnum (a :: b :: rest) true =
      if a ∈ decimalDigits ∧ b ∈ decimalDigits then
        some (digitValue a * 10 + digitValue b, rest)
      else none := by
  by_cases ha : a ∈ decimalDigits <;> by_cases hb : b ∈ decimalDigits <;>
    simp [time.getnum, isDigit_zero, isDigit_one, ha, hb, digitValue_eq]

theorem getnum_fixed_short (l : List Char) (h : l.length < 2) : time.getnum l true = none := by
  match l, h with
  | [], _ => simp [time.getnum, time.isDigit]
  | [a], _ => by_cases ha : a ∈ decimalDigits <;> simp [time.getnum, time.isDigit, isDigit_zero, ha]

theorem leadingInt_digit (c : Char) (rest : List Char) (x : Nat) (h : c ∈ decimalDigits)
    (hx : x ≤ 10 ^ 17) :
    time.leadingInt (c :: rest) x = time.leadingInt rest (x * 10 + digitValue c) := by
  have h1 := (mem_decimalDigits c).1 h
  have e := digitValue_eq c h
  have a1 : ¬ (c.toNat < 48 ∨ c.toNat > 57) := by omega
  have a2 : ¬ (x > 2 ^ 63 / 10) := by norm_num; omega
  have a3 : ¬ (x * 10 + (c.toNat - 48) > 2 ^ 63) := by norm_num; omega
  simp only [time.leadingInt, a1, a2, a3, if_false, e]

theorem leadingInt_nondigit (c : Char) (rest : List Char) (x : Nat) (h : c ∉ decimalDigits) :
    time.leadingInt (c :: rest) x = some (x, c :: rest) := by
  have h1 : c.toNat < 48 ∨ c.toNat > 57 := by
    have := (mem_decimalDigits c).not.1 h
    omega
  simp only [time.leadingInt, h1, if_true]

theorem atoi_four (a b c d : Char) (ha : a ∈ decimalDigits) :
    time.atoi [a, b, c, d] =
      if b ∈ decimalDigits ∧ c ∈ decimalDigits ∧ d ∈ decimalDigits then
        some ((1000 * digitValue a + 100 * digitValue b + 10 * digitValue c + digitValue d : Nat) : Int)
      else none := by
  have h1 := (mem_decimalDigits a).1 ha
  have s1 : ¬ (a = '-' ∨ a = '+') := by
    rintro (h | h) <;> subst h <;> simp at h1
  have va := digitValue_eq a ha
  simp only [time.atoi, s1, if_false]
  rw [leadingInt_digit a _ 0 ha (by norm_num)]
  by_cases hb : b ∈ decimalDigits
  · have vb := (mem_decimalDigits b).1 hb
    have eb := digitValue_eq b hb
    rw [leadingInt_digit b _ _ hb (by omega)]
    by_cases hc : c ∈ decimalDigits
    · have vc := (mem_decimalDigits c).1 hc
      have ec := digitValue_eq c hc
      rw [leadingInt_digit c _ _ hc (by omega)]
      by_cases hd : d ∈ decimalDigits
      · rw [leadingInt_digit d _ _ hd (by omega)]
        simp [time.leadingInt, hb, hc, hd]
        ring
      · rw [leadingInt_nondigit d _ _ hd]
        simp [hd]
    · rw [leadingInt_nondigit c _ _ hc]
      simp [hc]
  · rw [leadingInt_nondigit b _ _ hb]
    simp [hb]


theorem isDigit_zero_eq (c : Char) (l : List Char) :
    time.isDigit (c :: l) 0 = decide (c ∈ decimalDigits) := by
  by_cases h : c ∈ decimalDigits
  · simp [h, isDigit_zero]
  · have := (isDigit_zero c l).not.2 h
    simp [h, this]

theorem skip_dash (l : List Char) :
    time.skip l ['-'] = match l with
      | [] => none
      | c :: rest => if c = '-' then some rest else none := by
  cases l with
  | nil => rfl
  | cons c rest => by_cases h : c = '-' <;> simp [time.skip, h]

theorem Parse_finish (y : Int) (m d : Nat) :
    (if m ≤ 0 ∨ 12 < m then none
      else if d < 1 ∨ d > time.daysIn m y then none else some (time.Date y m d)) =
    if CivilDate.Valid ⟨y, m, d⟩ then some (midnight ⟨y, m, d⟩) else none := by
  by_cases hm : m ≤ 0 ∨ 12 < m
  · have : ¬ CivilDate.Valid ⟨y, m, d⟩ := by
      rintro ⟨h1, h2, -, -⟩
      simp only at h1 h2
      omega
    rw [if_pos hm, if_neg this]
  · have e := daysIn_eq y m (by omega) (by omega)
    rw [if_neg hm, e]
    by_cases hd : d < 1 ∨ d > monthLength y m
    · have : ¬ CivilDate.Valid ⟨y, m, d⟩ := by
        rintro ⟨-, -, h3, h4⟩
        simp only at h3 h4
        omega
      rw [if_pos hd, if_neg this]
    · have v : CivilDate.Valid ⟨y, m, d⟩ := ⟨by simp only; omega, by simp only; omega,
        by simp only; omega, by simp only; omega⟩
      rw [if_neg hd, if_pos v]
      simp only [time.Date, midnight, dayNumber_eq ⟨y, m, d⟩ v.1 v.2.1]

theorem readDateChars_year_none (y1 y2 y3 y4 : Char) (l : List Char)
    (h : ¬ (y1 ∈ decimalDigits ∧ y2 ∈ decimalDigits ∧ y3 ∈ decimalDigits ∧ y4 ∈ decimalDigits)) :
    readDateChars (y1 :: y2 :: y3 :: y4 :: l) = none := by
  rcases l with _ | ⟨h1, _ | ⟨m1, _ | ⟨m2, _ | ⟨h2, _ | ⟨d1, _ | ⟨d2, _ | ⟨x, l⟩⟩⟩⟩⟩⟩⟩ <;>
    simp only [readDateChars]
  rw [if_neg]
  rintro ⟨-, -, hall⟩
  exact h ⟨hall y1 (by simp), hall y2 (by simp), hall y3 (by simp), hall y4 (by simp)⟩

theorem Parse_eq (s : String) :
    time.Parse s = (readDate s).bind (fun D => if D.Valid then some (midnight D) else none) := by
  simp only [time.Parse, readDate]
  generalize s.toList = l
  rcases l with _ | ⟨y1, _ | ⟨y2, _ | ⟨y3, _ | ⟨y4, l⟩⟩⟩⟩
  · simp [readDateChars]
  · simp [readDateChars]
  · simp [readDateChars]
  · simp [readDateChars]
  · simp only [List.length_cons, isDigit_zero_eq, List.take_succ_cons, List.take_zero,
        List.drop_succ_cons, List.drop_zero]
    by_cases hy1 : y1 ∈ decimalDigits
    · simp only [atoi_four _ _ _ _ hy1]
      by_cases hy : y2 ∈ decimalDigits ∧ y3 ∈ decimalDigits ∧ y4 ∈ decimalDigits
      · simp only [hy, and_self, if_true, skip_dash]
        rcases l with _ | ⟨h1, _ | ⟨m1, _ | ⟨m2, _ | ⟨h2, _ | ⟨d1, _ | ⟨d2, _ | ⟨x, l⟩⟩⟩⟩⟩⟩⟩ <;>
          simp only [readDateChars]
        · simp
        · by_cases e : h1 = '-' <;> simp [e, getnum_fixed_short]
        · by_cases e : h1 = '-' <;> simp [e, getnum_fixed_short]
        · by_cases e : h1 = '-' <;> simp [e, getnum_fixed_cons, hy1]
          by_cases hm : m1 ∈ decimalDigits ∧ m2 ∈ decimalDigits <;> simp [hm]
        · by_cases e : h1 = '-' <;> simp [e, getnum_fixed_cons, hy1]
          by_cases hm : m1 ∈ decimalDigits ∧ m2 ∈ decimalDigits <;> simp [hm]
          by_cases e2 : h2 = '-' <;> simp [e2, getnum_fixed_short]
        · by_cases e : h1 = '-' <;> simp [e, getnum_fixed_cons, hy1]
          by_cases hm : m1 ∈ decimalDigits ∧ m2 ∈ decimalDigits <;> simp [hm]
          by_cases e2 : h2 = '-' <;> simp [e2, getnum_fixed_short]
        · by_cases e : h1 = '-'
          · by_cases hm : m1 ∈ decimalDigits ∧ m2 ∈ decimalDigits
            · by_cases e2 : h2 = '-'
              · by_cases hd : d1 ∈ decimalDigits ∧ d2 ∈ decimalDigits
                · have := Parse_finish
                    ((1000 * digitValue y1 + 100 * digitValue y2 + 10 * digitValue y3
                      + digitValue y4 : Nat) : Int)
                    (digitValue m1 * 10 + digitValue m2) (digitValue d1 * 10 + digitValue d2)
                  have c1 : 10 * digitValue m1 = digitValue m1 * 10 := Nat.mul_comm _ _
                  have c2 : 10 * digitValue d1 = digitValue d1 * 10 := Nat.mul_comm _ _
                  simpa [e, e2, hm, hd, hy1, hy, getnum_fixed_cons, c1, c2] using this
                · simp [e, e2, hm, hd, hy1, hy, getnum_fixed_cons]
              · simp [e, e2, hm, hy1, hy, getnum_fixed_cons]
            · simp [e, hm, hy1, hy, getnum_fixed_cons]
              rw [if_neg (fun h => hm ⟨h.2.1, h.2.2.1⟩)]
              rfl
          · simp [e, hy1, hy, getnum_fixed_cons]
        · by_cases e : h1 = '-' <;> simp [e, getnum_fixed_cons, hy1]
          by_cases hm : m1 ∈ decimalDigits ∧ m2 ∈ decimalDigits <;> simp [hm]
          by_cases e2 : h2 = '-' <;> simp [e2, getnum_fixed_cons]
          by_cases hd : d1 ∈ decimalDigits ∧ d2 ∈ decimalDigits <;> simp [hd]
      · rw [readDateChars_year_none y1 y2 y3 y4 l (fun h => hy h.2)]
        simp [hy]
    · rw [readDateChars_year_none y1 y2 y3 y4 l (fun h => hy1 h.1)]
      simp [hy1]

theorem Parse_of_wellFormed (s : String) (D : CivilDate) (h : WellFormedDate s D) :
    time.Parse s = some (midnight D) := by
  rw [Parse_eq, h.1]
  simp [h.2]

theorem wellFormed_of_Parse (s : String) (t : time.Time) (h : time.Parse s = some t) :
    ∃ D, WellFormedDate s D ∧ t = midnight D := by
  rw [Parse_eq] at h
  cases hr : readDate s with
  | none => rw [hr] at h; simp at h
  | some D =>
    rw [hr] at h
    by_cases hv : D.Valid
    · refine ⟨D, ⟨hr, hv⟩, ?_⟩
      simpa [hv] using h.symm
    · simp [hv] at h

theorem Parse_eq_none (s : String) (h : ¬ ∃ D, WellFormedDate s D) : time.Parse s = none := by
  cases hp : time.Parse s with
  | none => rfl
  | some t =>
    obtain ⟨D, hD, -⟩ := wellFormed_of_Parse s t hp
    exact (h ⟨D, hD⟩).elim

/-! ## Every instant falls on exactly one calendar day -/

theorem CivilDate_trichotomy (D E : CivilDate) : D.lt E ∨ D = E ∨ E.lt D := by
  obtain ⟨y, m, d⟩ := D
  obtain ⟨y1, m1, d1⟩ := E
  simp only [CivilDate.lt, CivilDate.mk.injEq]
  omega

theorem OnDay_exists (t : time.Time) : ∃ D, OnDay t D := by
  obtain ⟨D, hv, hd⟩ := exists_date_of_dayNumber (t.sec / 86400)
  exact ⟨D, hv, hd.symm⟩

theorem OnDay_unique (t : time.Time) (D E : CivilDate) (hD : OnDay t D) (hE : OnDay t E) :
    D = E := by
  rcases CivilDate_trichotomy D E with h | h | h
  · have := toDays_strictMono D E hD.1 hE.1 h
    have a := hD.2
    have b := hE.2
    omega
  · exact h
  · have := toDays_strictMono E D hE.1 hD.1 h
    have a := hD.2
    have b := hE.2
    omega

/-! ## The handler, step by step -/

theorem After_iff (t u : time.Time) : t.After u = true ↔ ¬ NotAfter t u := by
  simp only [time.Time.After, NotAfter, Bool.or_eq_true, Bool.and_eq_true, decide_eq_true_eq]
  omega

theorem index_eq_none (m : TokenMap) (key : String) (h : key ∉ m.map Prod.fst) :
    m.index key = none := by
  induction m with
  | nil => rfl
  | cons e rest ih =>
    obtain ⟨k, v⟩ := e
    simp only [List.map_cons, List.mem_cons, not_or] at h
    simp only [TokenMap.index]
    rw [if_neg (fun hk => h.1 hk.symm)]
    exact ih h.2

theorem index_delete (m : TokenMap) (key other : String) (h : other ≠ key) :
    (m.delete key).index other = m.index other := by
  induction m with
  | nil => rfl
  | cons e rest ih =>
    obtain ⟨k, v⟩ := e
    have ih1 : TokenMap.index (List.filter (fun e => decide (e.1 ≠ key)) rest) other
        = TokenMap.index rest other := ih
    by_cases hk : k = key
    · have hd : decide ((k, v).1 ≠ key) = false := by simp [hk]
      have hne : ¬ k = other := fun e => h (e.symm.trans hk)
      simp only [TokenMap.delete, List.filter_cons, hd, Bool.false_eq_true, if_false,
        TokenMap.index, hne]
      exact ih1
    · have hd : decide ((k, v).1 ≠ key) = true := by simp [hk]
      simp only [TokenMap.delete, List.filter_cons, hd, if_true, TokenMap.index]
      rw [ih1]

theorem validateToken_load_error (env : Env) (r : http.Request) (err : String)
    (h : loadTokens env = .error err) :
    validateToken env .new r = http.Error .new "Configuration error" 500 := by
  simp only [validateToken, h]
  rfl

theorem validateToken_absent (env : Env) (cfg : TokensConfig) (r : http.Request)
    (h : loadTokens env = .ok cfg) (ha : cfg.Tokens.index (r.PathValue "token") = none) :
    validateToken env .new r = http.Error .new "Invalid token" 403 := by
  simp only [validateToken, h, ha]
  rfl

theorem validateToken_malformed (env : Env) (cfg : TokensConfig) (r : http.Request)
    (info : TokenInfo) (h : loadTokens env = .ok cfg)
    (hi : cfg.Tokens.index (r.PathValue "token") = some info)
    (hp : time.Parse info.Expires = none) :
    validateToken env .new r = http.Error .new "Invalid expiration date" 500 := by
  simp only [validateToken, h, hi, hp]
  rfl

theorem validateToken_expired (env : Env) (cfg : TokensConfig) (r : http.Request)
    (info : TokenInfo) (expires : time.Time) (h : loadTokens env = .ok cfg)
    (hi : cfg.Tokens.index (r.PathValue "token") = some info)
    (hp : time.Parse info.Expires = some expires) (ha : env.Now.After expires = true) :
    validateToken env .new r = http.Error .new "Token expired" 403 := by
  simp only [validateToken, h, hi, hp, ha]
  rfl

theorem validateToken_success (env : Env) (cfg : TokensConfig) (r : http.Request)
    (info : TokenInfo) (expires : time.Time) (h : loadTokens env = .ok cfg)
    (hi : cfg.Tokens.index (r.PathValue "token") = some info)
    (hp : time.Parse info.Expires = some expires) (ha : env.Now.After expires = false) :
    validateToken env .new r = successResponse info := by
  simp only [validateToken, h, hi, hp, ha]
  simp [successResponse, http.ResponseWriter.new, http.ResponseWriter.Set, http.ResponseWriter.Write,
    http.ResponseWriter.WriteHeader]

theorem Error_new (msg : String) (code : Nat) :
    http.Error .new msg code =
      { header := [("Content-Type", "text/plain; charset=utf-8"), ("X-Content-Type-Options", "nosniff")]
        wroteHeader := true
        status := code
        body := [http.Chunk.text (msg ++ "\n")] } := by
  simp [http.Error, http.ResponseWriter.new, http.ResponseWriter.Set, http.ResponseWriter.Write,
    http.ResponseWriter.WriteHeader]

theorem After_midnight_of_later_day (now : time.Time) (D E : CivilDate) (hD : D.Valid)
    (hE : OnDay now E) (h : D.lt E) : now.After (midnight D) = true := by
  have m := toDays_strictMono D E hD hE.1 h
  have e := hE.2
  simp only [time.Time.After, midnight, Bool.or_eq_true, Bool.and_eq_true, decide_eq_true_eq]
  left
  omega

theorem After_midnight_of_earlier_day (now : time.Time) (D E : CivilDate) (hD : D.Valid)
    (hE : OnDay now E) (h : E.lt D) : now.After (midnight D) = false := by
  have m := toDays_strictMono E D hE.1 hD h
  have e := hE.2
  rw [Bool.eq_false_iff]
  simp only [ne_eq, time.Time.After, midnight, Bool.or_eq_true, Bool.and_eq_true,
    decide_eq_true_eq]
  omega

theorem After_midnight_same_day (now : time.Time) (D : CivilDate) (hD : OnDay now D) :
    now.After (midnight D) = false ↔ now = midnight D := by
  have e := hD.2
  obtain ⟨s, n⟩ := now
  rw [Bool.eq_false_iff]
  simp only [ne_eq, time.Time.After, midnight, Bool.or_eq_true, Bool.and_eq_true,
    decide_eq_true_eq, time.Time.mk.injEq] at e ⊢
  omega

theorem loadTokens_atInstant (env : Env) (t : time.Time) :
    loadTokens (env.atInstant t) = loadTokens env := rfl

theorem validateToken_shape (env : Env) (r : http.Request) :
    (∃ msg code, (msg, code) ∈ [("Configuration error", 500), ("Invalid token", 403),
        ("Invalid expiration date", 500), ("Token expired", 403)] ∧
        validateToken env .new r = http.Error .new msg code) ∨
      ∃ info, validateToken env .new r = successResponse info := by
  cases hl : loadTokens env with
  | error err => exact Or.inl ⟨_, _, by simp, validateToken_load_error env r err hl⟩
  | ok cfg =>
    cases hi : cfg.Tokens.index (r.PathValue "token") with
    | none => exact Or.inl ⟨_, _, by simp, validateToken_absent env cfg r hl hi⟩
    | some info =>
      cases hp : time.Parse info.Expires with
      | none => exact Or.inl ⟨_, _, by simp, validateToken_malformed env cfg r info hl hi hp⟩
      | some e =>
        cases ha : env.Now.After e with
        | true => exact Or.inl ⟨_, _, by simp, validateToken_expired env cfg r info e hl hi hp ha⟩
        | false => exact Or.inr ⟨info, validateToken_success env cfg r info e hl hi hp ha⟩

/-! ## The claims -/

/-- C1 (amended): the token stops being valid at the start of its expiration
day.  For a registry that loads, a token present in it whose `expires` is the
well-formed date `D`, and an instant on calendar day `D`, the answer is 200
exactly at the instant 00:00:00.000000000 UTC that begins `D`, and 403 at every
other instant of that day. -/
theorem C1_expiration_day_valid_only_at_its_first_instant (env : Env) (cfg : TokensConfig)
    (r : http.Request) (info : TokenInfo) (D : CivilDate)
    (hload : loadTokens env = .ok cfg)
    (hpresent : cfg.Tokens.index (r.PathValue "token") = some info)
    (hdate : WellFormedDate info.Expires D)
    (hday : OnDay env.Now D) :
    ((validateToken env .new r).status = 200 ↔ env.Now = midnight D) ∧
      (env.Now ≠ midnight D → (validateToken env .new r).status = 403) := by
  have hp := Parse_of_wellFormed info.Expires D hdate
  have hs := After_midnight_same_day env.Now D hday
  cases ha : env.Now.After (midnight D) with
  | true =>
    have hne : env.Now ≠ midnight D := by
      intro e
      have := hs.2 e
      rw [ha] at this
      exact Bool.noConfusion this
    rw [validateToken_expired env cfg r info (midnight D) hload hpresent hp ha, Error_new]
    exact ⟨⟨fun h => by simp at h, fun h => (hne h).elim⟩, fun _ => rfl⟩
  | false =>
    have he := hs.1 ha
    rw [validateToken_success env cfg r info (midnight D) hload hpresent hp ha]
    exact ⟨⟨fun _ => he, fun _ => rfl⟩, fun h => (h he).elim⟩

/-- C1 (witness): on 2025-06-15 at 00:00:00 the token that expires on
2025-06-15 is accepted, one nanosecond before the end of the day it is not. -/
theorem C1_witness_first_and_last_instant :
    (((validateToken (exampleEnv june15LastNano) .new (requestFor "tok-edge")).status = 200 ↔
        (exampleEnv june15LastNano).Now = midnight ⟨2025, 6, 15⟩) ∧
      ((exampleEnv june15LastNano).Now ≠ midnight ⟨2025, 6, 15⟩ →
        (validateToken (exampleEnv june15LastNano) .new (requestFor "tok-edge")).status = 403)) :=
  C1_expiration_day_valid_only_at_its_first_instant (exampleEnv june15LastNano) exampleConfig
    (requestFor "tok-edge") ⟨"carol", some ["read"], "2025-06-15"⟩ ⟨2025, 6, 15⟩
    rfl (by decide) (by decide) (by decide)

/-- C1 (counterexample): the registry loads, `tok-edge` is present with the
well-formed expiration date 2025-06-15, the instant 2025-06-15 12:00:00 UTC
falls on that day, and the answer is 403, not 200. -/
theorem C1_counterexample_noon_of_expiration_day :
    loadTokens (exampleEnv june15Noon) = .ok exampleConfig ∧
      exampleConfig.Tokens.index ((requestFor "tok-edge").PathValue "token")
        = some ⟨"carol", some ["read"], "2025-06-15"⟩ ∧
      WellFormedDate "2025-06-15" ⟨2025, 6, 15⟩ ∧
      OnDay (exampleEnv june15Noon).Now ⟨2025, 6, 15⟩ ∧
      (validateToken (exampleEnv june15Noon) .new (requestFor "tok-edge")).status = 403 ∧
      (validateToken (exampleEnv june15Noon) .new (requestFor "tok-edge")).status ≠ 200 :=
  ⟨rfl, by decide, by decide, by decide, by decide, by decide⟩

/-- C2: for a registry that loads and a token that is not a key of the
registry, the answer is 403 (the `Invalid token` error response) at every
instant.  Keys are compared as whole strings, so a key that differs in letter
case or in surrounding blanks is a different key. -/
theorem C2_absent_token_is_forbidden (env : Env) (cfg : TokensConfig) (r : http.Request)
    (hload : loadTokens env = .ok cfg)
    (habsent : r.PathValue "token" ∉ cfg.Tokens.map Prod.fst) :
    (validateToken env .new r).status = 403 ∧
      validateToken env .new r = http.Error .new "Invalid token" http.StatusForbidden := by
  have h := validateToken_absent env cfg r hload (index_eq_none _ _ habsent)
  rw [h, Error_new]
  exact ⟨rfl, rfl⟩

/-- C2 (witness): `tok-xyz` is not a key of the example registry, although
`TOK-XYZ` and ` tok-xyz ` are; it is refused. -/
theorem C2_witness_case_and_blanks :
    (validateToken (exampleEnv june15Noon) .new (requestFor "tok-xyz")).status = 403 ∧
      validateToken (exampleEnv june15Noon) .new (requestFor "tok-xyz")
        = http.Error .new "Invalid token" http.StatusForbidden :=
  C2_absent_token_is_forbidden (exampleEnv june15Noon) exampleConfig (requestFor "tok-xyz")
    rfl (by decide)

/-- C3: for a registry that loads, a token present in it whose `expires` is the
well-formed date `D`, and an instant whose calendar date `E` is strictly after
`D`, the answer is 403 and not 200. -/
theorem C3_expired_token_is_forbidden (env : Env) (cfg : TokensConfig) (r : http.Request)
    (info : TokenInfo) (D E : CivilDate)
    (hload : loadTokens env = .ok cfg)
    (hpresent : cfg.Tokens.index (r.PathValue "token") = some info)
    (hdate : WellFormedDate info.Expires D)
    (hday : OnDay env.Now E)
    (hafter : D.lt E) :
    (validateToken env .new r).status = 403 ∧ (validateToken env .new r).status ≠ 200 := by
  have hp := Parse_of_wellFormed info.Expires D hdate
  have ha := After_midnight_of_later_day env.Now D E hdate.2 hday hafter
  rw [validateToken_expired env cfg r info (midnight D) hload hpresent hp ha, Error_new]
  exact ⟨rfl, by decide⟩

/-- C3 (witness): `tok-old` expired on 2024-01-01 and is refused on
2025-06-15. -/
theorem C3_witness_old_token :
    (validateToken (exampleEnv june15Noon) .new (requestFor "tok-old")).status = 403 ∧
      (validateToken (exampleEnv june15Noon) .new (requestFor "tok-old")).status ≠ 200 :=
  C3_expired_token_is_forbidden (exampleEnv june15Noon) exampleConfig (requestFor "tok-old")
    ⟨"bob", some [], "2024-01-01"⟩ ⟨2024, 1, 1⟩ ⟨2025, 6, 15⟩
    rfl (by decide) (by decide) (by decide) (by decide)

/-- C4: for a registry that loads, a token present in it whose `expires` is the
well-formed date `D`, and an instant whose calendar date `E` is strictly before
`D`, the answer is 200 with header `X-Validated-User` equal to the record's
user, `Content-Type: application/json`, and as body the JSON object whose
`user` is the record's user and whose `permissions` is the record's permission
sequence, unchanged. -/
theorem C4_valid_token_is_reported (env : Env) (cfg : TokensConfig) (r : http.Request)
    (info : TokenInfo) (D E : CivilDate)
    (hload : loadTokens env = .ok cfg)
    (hpresent : cfg.Tokens.index (r.PathValue "token") = some info)
    (hdate : WellFormedDate info.Expires D)
    (hday : OnDay env.Now E)
    (hbefore : E.lt D) :
    (validateToken env .new r).status = 200 ∧
      (validateToken env .new r).Get "X-Validated-User" = some info.User ∧
      (validateToken env .new r).Get "Content-Type" = some "application/json" ∧
      (validateToken env .new r).body =
        [http.Chunk.json [("user", http.Value.string info.User),
          ("permissions", http.Value.strings info.Permissions)]] := by
  have hp := Parse_of_wellFormed info.Expires D hdate
  have ha := After_midnight_of_earlier_day env.Now D E hdate.2 hday hbefore
  rw [validateToken_success env cfg r info (midnight D) hload hpresent hp ha]
  refine ⟨rfl, ?_, ?_, rfl⟩
  · simp [http.ResponseWriter.Get, successResponse]
  · simp [http.ResponseWriter.Get, successResponse]

/-- C4 (witness): scenario 1 of the specification, `tok-abc` on 2025-06-15. -/
theorem C4_witness_alice :
    (validateToken (exampleEnv june15Noon) .new (requestFor "tok-abc")).status = 200 ∧
      (validateToken (exampleEnv june15Noon) .new (requestFor "tok-abc")).Get "X-Validated-User"
        = some "alice" ∧
      (validateToken (exampleEnv june15Noon) .new (requestFor "tok-abc")).Get "Content-Type"
        = some "application/json" ∧
      (validateToken (exampleEnv june15Noon) .new (requestFor "tok-abc")).body =
        [http.Chunk.json [("user", http.Value.string "alice"),
          ("permissions", http.Value.strings (some ["read", "write"]))]] :=
  C4_valid_token_is_reported (exampleEnv june15Noon) exampleConfig (requestFor "tok-abc")
    ⟨"alice", some ["read", "write"], "2025-12-31"⟩ ⟨2025, 12, 31⟩ ⟨2025, 6, 15⟩
    rfl (by decide) (by decide) (by decide) (by decide)

/-- C5 (amended): a present but expired token and an absent token get the same
status code 403 and the same headers, but not the same body: the expired token
is told `Token expired`, the absent one `Invalid token`. -/
theorem C5_expired_and_absent_share_status_not_body (env : Env) (cfg : TokensConfig)
    (rExpired rAbsent : http.Request) (info : TokenInfo) (D : CivilDate)
    (hload : loadTokens env = .ok cfg)
    (hpresent : cfg.Tokens.index (rExpired.PathValue "token") = some info)
    (hdate : WellFormedDate info.Expires D)
    (hexpired : ¬ NotAfter env.Now (midnight D))
    (habsent : rAbsent.PathValue "token" ∉ cfg.Tokens.map Prod.fst) :
    (validateToken env .new rExpired).status = 403 ∧
      (validateToken env .new rAbsent).status = 403 ∧
      (validateToken env .new rExpired).header = (validateToken env .new rAbsent).header ∧
      (validateToken env .new rExpired).body = [http.Chunk.text "Token expired\n"] ∧
      (validateToken env .new rAbsent).body = [http.Chunk.text "Invalid token\n"] ∧
      (validateToken env .new rExpired).body ≠ (validateToken env .new rAbsent).body := by
  have hp := Parse_of_wellFormed info.Expires D hdate
  have ha := (After_iff env.Now (midnight D)).2 hexpired
  rw [validateToken_expired env cfg rExpired info (midnight D) hload hpresent hp ha,
    validateToken_absent env cfg rAbsent hload (index_eq_none _ _ habsent), Error_new, Error_new]
  exact ⟨rfl, rfl, rfl, by decide, by decide, by decide⟩

/-- C5 (witness): `tok-old` (expired) against `tok-xyz` (absent) on
2025-06-15. -/
theorem C5_witness_old_and_unknown :
    (validateToken (exampleEnv june15Noon) .new (requestFor "tok-old")).status = 403 ∧
      (validateToken (exampleEnv june15Noon) .new (requestFor "tok-xyz")).status = 403 ∧
      (validateToken (exampleEnv june15Noon) .new (requestFor "tok-old")).header
        = (validateToken (exampleEnv june15Noon) .new (requestFor "tok-xyz")).header ∧
      (validateToken (exampleEnv june15Noon) .new (requestFor "tok-old")).body
        = [http.Chunk.text "Token expired\n"] ∧
      (validateToken (exampleEnv june15Noon) .new (requestFor "tok-xyz")).body
        = [http.Chunk.text "Invalid token\n"] ∧
      (validateToken (exampleEnv june15Noon) .new (requestFor "tok-old")).body
        ≠ (validateToken (exampleEnv june15Noon) .new (requestFor "tok-xyz")).body :=
  C5_expired_and_absent_share_status_not_body (exampleEnv june15Noon) exampleConfig
    (requestFor "tok-old") (requestFor "tok-xyz") ⟨"bob", some [], "2024-01-01"⟩ ⟨2024, 1, 1⟩
    rfl (by decide) (by decide) (by decide) (by decide)

/-- C5 (counterexample): the registry loads, `tok-old` is present and expired,
`tok-xyz` is absent, and the two responses differ in their bodies. -/
theorem C5_counterexample_bodies_differ :
    loadTokens (exampleEnv june15Noon) = .ok exampleConfig ∧
      exampleConfig.Tokens.index ((requestFor "tok-old").PathValue "token")
        = some ⟨"bob", some [], "2024-01-01"⟩ ∧
      WellFormedDate "2024-01-01" ⟨2024, 1, 1⟩ ∧
      OnDay (exampleEnv june15Noon).Now ⟨2025, 6, 15⟩ ∧
      exampleConfig.Tokens.index ((requestFor "tok-xyz").PathValue "token") = none ∧
      (validateToken (exampleEnv june15Noon) .new (requestFor "tok-old")).body
        = [http.Chunk.text "Token expired\n"] ∧
      (validateToken (exampleEnv june15Noon) .new (requestFor "tok-xyz")).body
        = [http.Chunk.text "Invalid token\n"] ∧
      validateToken (exampleEnv june15Noon) .new (requestFor "tok-old")
        ≠ validateToken (exampleEnv june15Noon) .new (requestFor "tok-xyz") :=
  ⟨rfl, by decide, by decide, by decide, by decide, by decide, by decide, by decide⟩

/-- C6: when loading the registry fails, because the file cannot be read or
because its content does not decode, the answer is 500 (the
`Configuration error` response) for every token at every instant. -/
theorem C6_load_failure_is_internal_error (env : Env) (r : http.Request)
    (hfail : (∃ err, env.ReadFile "tokens.yaml" = .error err) ∨
      (∃ data err, env.ReadFile "tokens.yaml" = .ok data ∧ env.Unmarshal data = .error err)) :
    (validateToken env .new r).status = 500 ∧
      validateToken env .new r
        = http.Error .new "Configuration error" http.StatusInternalServerError := by
  have hl : ∃ err, loadTokens env = .error err := by
    rcases hfail with ⟨err, h⟩ | ⟨data, err, h1, h2⟩
    · exact ⟨err, by simp only [loadTokens, h]⟩
    · exact ⟨err, by simp only [loadTokens, h1, h2]⟩
  obtain ⟨err, hl⟩ := hl
  rw [validateToken_load_error env r err hl, Error_new]
  exact ⟨rfl, rfl⟩

/-- C6 (witness): scenario 5 of the specification, with the file missing and
with the file not decoding. -/
theorem C6_witness_missing_and_corrupt :
    ((validateToken (missingFileEnv june15Noon) .new (requestFor "tok-abc")).status = 500 ∧
      validateToken (missingFileEnv june15Noon) .new (requestFor "tok-abc")
        = http.Error .new "Configuration error" http.StatusInternalServerError) ∧
    ((validateToken (corruptFileEnv june15Noon) .new (requestFor "tok-abc")).status = 500 ∧
      validateToken (corruptFileEnv june15Noon) .new (requestFor "tok-abc")
        = http.Error .new "Configuration error" http.StatusInternalServerError) :=
  ⟨C6_load_failure_is_internal_error (missingFileEnv june15Noon) (requestFor "tok-abc")
      (Or.inl ⟨_, rfl⟩),
    C6_load_failure_is_internal_error (corruptFileEnv june15Noon) (requestFor "tok-abc")
      (Or.inr ⟨_, _, rfl, rfl⟩)⟩

/-- C7: a malformed `expires` is a fault of its own record only.  For a
registry that loads, a token whose record's `expires` is not a well-formed
date gets 500 at every instant, and every other token gets exactly the response
it gets from the registry with that record removed. -/
theorem C7_malformed_date_is_local (env envWithout : Env) (cfg : TokensConfig)
    (r : http.Request) (info : TokenInfo)
    (hload : loadTokens env = .ok cfg)
    (hpresent : cfg.Tokens.index (r.PathValue "token") = some info)
    (hmalformed : ¬ ∃ D, WellFormedDate info.Expires D)
    (hloadWithout :
      loadTokens envWithout = .ok { Tokens := cfg.Tokens.delete (r.PathValue "token") })
    (hnow : envWithout.Now = env.Now) :
    (validateToken env .new r).status = 500 ∧
      ∀ other : http.Request, other.PathValue "token" ≠ r.PathValue "token" →
        validateToken env .new other = validateToken envWithout .new other := by
  constructor
  · rw [validateToken_malformed env cfg r info hload hpresent (Parse_eq_none _ hmalformed),
      Error_new]
  · intro other hne
    simp only [validateToken, hload, hloadWithout, index_delete _ _ _ hne, hnow]

/-- C7 (witness): scenario 6 of the specification; `tok-bad` gets 500, and
every other token is answered as if `tok-bad` were not in the registry. -/
theorem C7_witness_not_a_date :
    (validateToken (exampleEnv june15Noon) .new (requestFor "tok-bad")).status = 500 ∧
      ∀ other : http.Request, other.PathValue "token" ≠ (requestFor "tok-bad").PathValue "token" →
        validateToken (exampleEnv june15Noon) .new other
          = validateToken (exampleEnvWithout "tok-bad" june15Noon) .new other :=
  C7_malformed_date_is_local (exampleEnv june15Noon) (exampleEnvWithout "tok-bad" june15Noon)
    exampleConfig (requestFor "tok-bad") ⟨"dave", none, "not-a-date"⟩
    rfl (by decide)
    (fun h => h.elim (fun _ hD =>
      Option.noConfusion ((show readDate "not-a-date" = none from by decide).symm.trans hD.1)))
    rfl rfl

/-- C8 (amended): for a registry that loads, every token and every two instants
on the same calendar day, the two responses are identical, unless the token is
present with a well-formed `expires` equal to that very day and exactly one of
the two instants is the instant 00:00:00.000000000 UTC that begins the day. -/
theorem C8_same_day_same_response_off_expiry_boundary (env : Env) (cfg : TokensConfig)
    (r : http.Request) (t1 t2 : time.Time) (E : CivilDate)
    (hload : loadTokens env = .ok cfg)
    (h1 : OnDay t1 E) (h2 : OnDay t2 E)
    (hboundary : ∀ info, cfg.Tokens.index (r.PathValue "token") = some info →
      WellFormedDate info.Expires E → (t1 = midnight E ↔ t2 = midnight E)) :
    validateToken (env.atInstant t1) .new r = validateToken (env.atInstant t2) .new r := by
  have l1 : loadTokens (env.atInstant t1) = .ok cfg := hload
  have l2 : loadTokens (env.atInstant t2) = .ok cfg := hload
  cases hi : cfg.Tokens.index (r.PathValue "token") with
  | none => rw [validateToken_absent _ cfg r l1 hi, validateToken_absent _ cfg r l2 hi]
  | some info =>
    cases hp : time.Parse info.Expires with
    | none =>
      rw [validateToken_malformed _ cfg r info l1 hi hp,
        validateToken_malformed _ cfg r info l2 hi hp]
    | some e =>
      obtain ⟨D, hD, rfl⟩ := wellFormed_of_Parse _ _ hp
      rcases CivilDate_trichotomy D E with hlt | heq | hgt
      · rw [validateToken_expired _ cfg r info _ l1 hi hp
            (After_midnight_of_later_day t1 D E hD.2 h1 hlt),
          validateToken_expired _ cfg r info _ l2 hi hp
            (After_midnight_of_later_day t2 D E hD.2 h2 hlt)]
      · subst heq
        have hb := hboundary info hi hD
        have s1 := After_midnight_same_day t1 D h1
        have s2 := After_midnight_same_day t2 D h2
        cases a1 : t1.After (midnight D) with
        | false =>
          have a2 : t2.After (midnight D) = false := s2.2 (hb.1 (s1.1 a1))
          rw [validateToken_success _ cfg r info _ l1 hi hp a1,
            validateToken_success _ cfg r info _ l2 hi hp a2]
        | true =>
          have a2 : t2.After (midnight D) = true := by
            cases a2 : t2.After (midnight D) with
            | true => rfl
            | false =>
              have := s1.2 (hb.2 (s2.1 a2))
              rw [a1] at this
              exact Bool.noConfusion this
          rw [validateToken_expired _ cfg r info _ l1 hi hp a1,
            validateToken_expired _ cfg r info _ l2 hi hp a2]
      · rw [validateToken_success _ cfg r info _ l1 hi hp
            (After_midnight_of_earlier_day t1 D E hD.2 h1 hgt),
          validateToken_success _ cfg r info _ l2 hi hp
            (After_midnight_of_earlier_day t2 D E hD.2 h2 hgt)]

/-- C8 (witness): `tok-edge` at noon and at the last nanosecond of its
expiration day 2025-06-15 gets the same response. -/
theorem C8_witness_noon_and_last_instant :
    validateToken ((exampleEnv june15Noon).atInstant june15Noon) .new (requestFor "tok-edge")
      = validateToken ((exampleEnv june15Noon).atInstant june15LastNano) .new
          (requestFor "tok-edge") :=
  C8_same_day_same_response_off_expiry_boundary (exampleEnv june15Noon) exampleConfig
    (requestFor "tok-edge") june15Noon june15LastNano ⟨2025, 6, 15⟩ rfl (by decide) (by decide)
    (fun _ _ _ => by decide)

/-- C8 (counterexample): the instants 2025-06-15 00:00:00 and 2025-06-15
12:00:00 fall on the same calendar day, the registry loads, and `tok-edge` is
answered 200 at the first and 403 at the second. -/
theorem C8_counterexample_midnight_and_noon :
    loadTokens (exampleEnv june15Noon) = .ok exampleConfig ∧
      OnDay june15Midnight ⟨2025, 6, 15⟩ ∧ OnDay june15Noon ⟨2025, 6, 15⟩ ∧
      (validateToken ((exampleEnv june15Noon).atInstant june15Midnight) .new
        (requestFor "tok-edge")).status = 200 ∧
      (validateToken ((exampleEnv june15Noon).atInstant june15Noon) .new
        (requestFor "tok-edge")).status = 403 ∧
      validateToken ((exampleEnv june15Noon).atInstant june15Midnight) .new (requestFor "tok-edge")
        ≠ validateToken ((exampleEnv june15Noon).atInstant june15Noon) .new
            (requestFor "tok-edge") :=
  ⟨rfl, by decide, by decide, by decide, by decide, by decide⟩

/-- C9: no partial success.  Whatever the load outcome, the token and the
instant, the status is 200, 403 or 500; the response carries the
`X-Validated-User` header exactly when the status is 200, and a JSON body with
user and permissions exactly when the status is 200; every other response is
`http.Error` of one of four fixed messages and holds nothing of any record. -/
theorem C9_success_is_all_or_nothing (env : Env) (r : http.Request) :
    ((validateToken env .new r).status = 200 ∨ (validateToken env .new r).status = 403 ∨
        (validateToken env .new r).status = 500) ∧
      ((validateToken env .new r).status = 200 ↔
        ((validateToken env .new r).Get "X-Validated-User").isSome = true) ∧
      ((validateToken env .new r).status = 200 ↔
        ∃ m, http.Chunk.json m ∈ (validateToken env .new r).body) ∧
      ((validateToken env .new r).status ≠ 200 →
        ∃ msg ∈ errorMessages,
          validateToken env .new r = http.Error .new msg (validateToken env .new r).status) := by
  rcases validateToken_shape env r with ⟨msg, code, hm, h⟩ | ⟨info, h⟩
  · rw [h]
    simp only [List.mem_cons, Prod.mk.injEq, List.mem_singleton, List.not_mem_nil, or_false] at hm
    rcases hm with ⟨rfl, rfl⟩ | ⟨rfl, rfl⟩ | ⟨rfl, rfl⟩ | ⟨rfl, rfl⟩ <;>
      simp [Error_new, http.ResponseWriter.Get, errorMessages]
  · rw [h]
    simp [successResponse, http.ResponseWriter.Get]

/-- C10: expiry is monotone in time.  For instants `t` not after `u`: if the
answer at `t` is the `Token expired` 403 response, so is the answer at `u`; and
if the answer at `u` is 200, so is the answer at `t`. -/
theorem C10_expiry_is_monotone (env : Env) (r : http.Request) (t u : time.Time)
    (horder : NotAfter t u) :
    (validateToken (env.atInstant t) .new r = http.Error .new "Token expired" http.StatusForbidden →
        validateToken (env.atInstant u) .new r
          = http.Error .new "Token expired" http.StatusForbidden) ∧
      ((validateToken (env.atInstant u) .new r).status = 200 →
        (validateToken (env.atInstant t) .new r).status = 200) := by
  cases hl : loadTokens env with
  | error err =>
    have l1 : loadTokens (env.atInstant t) = .error err := hl
    have l2 : loadTokens (env.atInstant u) = .error err := hl
    rw [validateToken_load_error _ r err l1, validateToken_load_error _ r err l2]
    exact ⟨id, id⟩
  | ok cfg =>
    have l1 : loadTokens (env.atInstant t) = .ok cfg := hl
    have l2 : loadTokens (env.atInstant u) = .ok cfg := hl
    cases hi : cfg.Tokens.index (r.PathValue "token") with
    | none =>
      rw [validateToken_absent _ cfg r l1 hi, validateToken_absent _ cfg r l2 hi]
      exact ⟨id, id⟩
    | some info =>
      cases hp : time.Parse info.Expires with
      | none =>
        rw [validateToken_malformed _ cfg r info l1 hi hp,
          validateToken_malformed _ cfg r info l2 hi hp]
        exact ⟨id, id⟩
      | some e =>
        cases a1 : t.After e with
        | true =>
          have a2 : u.After e = true := by
            rw [After_iff] at a1 ⊢
            simp only [NotAfter] at a1 horder ⊢
            omega
          rw [validateToken_expired _ cfg r info e l1 hi hp a1,
            validateToken_expired _ cfg r info e l2 hi hp a2]
          exact ⟨id, id⟩
        | false =>
          rw [validateToken_success _ cfg r info e l1 hi hp a1]
          refine ⟨fun h => ?_, fun _ => rfl⟩
          rw [Error_new] at h
          have := congrArg http.ResponseWriter.status h
          simp [successResponse, http.StatusForbidden] at this

/-- C10 (witness): `tok-edge` at noon of its expiration day and at the last
nanosecond of that day. -/
theorem C10_witness_noon_then_last_instant :
    (validateToken ((exampleEnv june15Noon).atInstant june15Noon) .new (requestFor "tok-edge")
        = http.Error .new "Token expired" http.StatusForbidden →
      validateToken ((exampleEnv june15Noon).atInstant june15LastNano) .new (requestFor "tok-edge")
        = http.Error .new "Token expired" http.StatusForbidden) ∧
    ((validateToken ((exampleEnv june15Noon).atInstant june15LastNano) .new
        (requestFor "tok-edge")).status = 200 →
      (validateToken ((exampleEnv june15Noon).atInstant june15Noon) .new
        (requestFor "tok-edge")).status = 200) :=
  C10_expiry_is_monotone (exampleEnv june15Noon) (requestFor "tok-edge") june15Noon
    june15LastNano (by decide)

end AuthServer
